import Mathlib

/-!
Verification of the navigation and input-dispatch core of the `bed` hex
editor: the viewport/cursor engine (`core/window.go`) and the key sequence
resolver (`core/key.go`).

Go `int64` values are modelled as unbounded `Int`; Go's division and
remainder truncate toward zero, which is `Int.tdiv` / `Int.tmod`.
`util.MinInt64` / `util.MaxInt64` are `min` / `max` on `Int`.
-/

namespace Bed

/-- Modelled from the spec: the interaction modes of the mode registry
(normal, insert, replace, command-line); declared outside the given core
files. -/
inductive Mode where
  | normal
  | insert
  | replace
  | cmdline
deriving DecidableEq

/-- The viewport/cursor state of `Window` in `core/window.go`.  The byte
source behind `buffer` is modelled by `data` (a positional read with zero
fill past the end, per the byte-access collaborator contract of the spec);
`name`, `basename` and `mode` play no part in the navigation operations and
are omitted.  The Go jump stack is a slice appended at the end; here the
most recent `(cursor, offset)` pair is at the head of the list. -/
structure Window where
  height : Int
  width : Int
  offset : Int
  cursor : Int
  length : Int
  stack : List (Int × Int)
  data : List Nat
deriving DecidableEq

/-- Go `Window.cursorUp` from `core/window.go`. -/
def cursorUp (count : Int) (w : Window) : Window :=
  let cursor := w.cursor - min (max count 1) (w.cursor.tdiv w.width) * w.width
  if cursor < w.offset then
    { w with cursor := cursor, offset := cursor.tdiv w.width * w.width }
  else
    { w with cursor := cursor }

/-- Go `Window.cursorDown` from `core/window.go`. -/
def cursorDown (count : Int) (w : Window) : Window :=
  let cursor := w.cursor + min
    (min (max count 1) ((max w.length 1 - 1).tdiv w.width - w.cursor.tdiv w.width) * w.width)
    (max w.length 1 - 1 - w.cursor)
  if cursor ≥ w.offset + w.height * w.width then
    let offset := (cursor - w.height * w.width + w.width).tdiv w.width * w.width
    { w with cursor := cursor, offset := offset }
  else
    { w with cursor := cursor }

/-- Go `Window.cursorLeft` from `core/window.go`. -/
def cursorLeft (count : Int) (w : Window) : Window :=
  { w with cursor := w.cursor - min (max count 1) (w.cursor.tmod w.width) }

/-- Go `Window.cursorRight` from `core/window.go`. -/
def cursorRight (count : Int) (w : Window) : Window :=
  let cursor := w.cursor + min
    (min (max count 1) (w.width - 1 - w.cursor.tmod w.width))
    (max w.length 1 - 1 - w.cursor)
  { w with cursor := cursor }

/-- Go `Window.cursorPrev` from `core/window.go`. -/
def cursorPrev (count : Int) (w : Window) : Window :=
  let cursor := w.cursor - min (max count 1) w.cursor
  if cursor < w.offset then
    { w with cursor := cursor, offset := cursor.tdiv w.width * w.width }
  else
    { w with cursor := cursor }

/-- Go `Window.cursorNext` from `core/window.go`. -/
def cursorNext (count : Int) (w : Window) : Window :=
  let cursor := w.cursor + min (max count 1) (max w.length 1 - 1 - w.cursor)
  if cursor ≥ w.offset + w.height * w.width then
    let offset := (cursor - w.height * w.width + w.width).tdiv w.width * w.width
    { w with cursor := cursor, offset := offset }
  else
    { w with cursor := cursor }

/-- Go `Window.cursorHead` from `core/window.go` (the count is ignored). -/
def cursorHead (_count : Int) (w : Window) : Window :=
  { w with cursor := w.cursor - w.cursor.tmod w.width }

/-- Go `Window.cursorEnd` from `core/window.go`. -/
def cursorEnd (count : Int) (w : Window) : Window :=
  let cursor := min ((w.cursor.tdiv w.width + max count 1) * w.width - 1) (max w.length 1 - 1)
  if cursor ≥ w.offset + w.height * w.width then
    let offset := (cursor - w.height * w.width + w.width).tdiv w.width * w.width
    { w with cursor := cursor, offset := offset }
  else
    { w with cursor := cursor }

/-- Go `Window.scrollUp` from `core/window.go`. -/
def scrollUp (count : Int) (w : Window) : Window :=
  let offset := w.offset - min (max count 1) (w.offset.tdiv w.width) * w.width
  if w.cursor ≥ offset + w.height * w.width then
    let cursor := w.cursor -
      ((w.cursor - offset - w.height * w.width).tdiv w.width + 1) * w.width
    { w with offset := offset, cursor := cursor }
  else
    { w with offset := offset }

/-- Go `Window.scrollDown` from `core/window.go`. -/
def scrollDown (count : Int) (w : Window) : Window :=
  let h := (max w.length 1 + w.width - 1).tdiv w.width - w.height
  let offset := w.offset + min (max count 1) (h - w.offset.tdiv w.width) * w.width
  if w.cursor < offset then
    let cursor := w.cursor + min
      ((offset - w.cursor + w.width - 1).tdiv w.width * w.width)
      (max w.length 1 - 1 - w.cursor)
    { w with offset := offset, cursor := cursor }
  else
    { w with offset := offset }

/-- Go `Window.pageUp` from `core/window.go`. -/
def pageUp (w : Window) : Window :=
  let offset := max (w.offset - (w.height - 2) * w.width) 0
  if offset = 0 then
    { w with offset := offset, cursor := 0 }
  else if w.cursor ≥ offset + w.height * w.width then
    { w with offset := offset, cursor := offset + (w.height - 1) * w.width }
  else
    { w with offset := offset }

/-- Go `Window.pageDown` from `core/window.go`. -/
def pageDown (w : Window) : Window :=
  let offset0 := max (((w.length + w.width - 1).tdiv w.width - w.height) * w.width) 0
  let offset := min (w.offset + (w.height - 2) * w.width) offset0
  if w.cursor < offset then
    { w with offset := offset, cursor := offset }
  else if offset = offset0 then
    let cursor := ((max w.length 1 + w.width - 1).tdiv w.width - 1) * w.width
    { w with offset := offset, cursor := cursor }
  else
    { w with offset := offset }

/-- Go `Window.pageUpHalf` from `core/window.go`. -/
def pageUpHalf (w : Window) : Window :=
  let offset := max (w.offset - max (w.height.tdiv 2) 1 * w.width) 0
  if offset = 0 then
    { w with offset := offset, cursor := 0 }
  else if w.cursor ≥ offset + w.height * w.width then
    { w with offset := offset, cursor := offset + (w.height - 1) * w.width }
  else
    { w with offset := offset }

/-- Go `Window.pageDownHalf` from `core/window.go`. -/
def pageDownHalf (w : Window) : Window :=
  let offset0 := max (((w.length + w.width - 1).tdiv w.width - w.height) * w.width) 0
  let offset := min (w.offset + max (w.height.tdiv 2) 1 * w.width) offset0
  if w.cursor < offset then
    { w with offset := offset, cursor := offset }
  else if offset = offset0 then
    let cursor := ((max w.length 1 + w.width - 1).tdiv w.width - 1) * w.width
    { w with offset := offset, cursor := cursor }
  else
    { w with offset := offset }

/-- Go `Window.pageTop` from `core/window.go`. -/
def pageTop (w : Window) : Window :=
  { w with offset := 0, cursor := 0 }

/-- Go `Window.pageEnd` from `core/window.go`. -/
def pageEnd (w : Window) : Window :=
  let offset := max (((w.length + w.width - 1).tdiv w.width - w.height) * w.width) 0
  let cursor := ((max w.length 1 + w.width - 1).tdiv w.width - 1) * w.width
  { w with offset := offset, cursor := cursor }

/-- Go `isDigit` from `core/window.go` (a byte between 0x30 and 0x39). -/
def isDigit (b : Nat) : Bool := 0x30 ≤ b ∧ b ≤ 0x39

/-- Go `isWhite` from `core/window.go` (NUL, tab, LF, CR or space). -/
def isWhite (b : Nat) : Bool := b = 0x00 ∨ b = 0x09 ∨ b = 0x0a ∨ b = 0x0d ∨ b = 0x20

/-- One byte of the backing data at absolute address `p`; positions outside
the data read as zero, matching the zero-filled slice `readBytes` returns
when the read stops at end-of-data. -/
def readByte (data : List Nat) (p : Int) : Nat :=
  if 0 ≤ p then data.getD p.toNat 0 else 0

/-- Go `Window.readBytes` from `core/window.go`: the `len` bytes starting at
`pos` (zero-filled past end-of-data). -/
def readBytes (w : Window) (pos : Int) (len : Nat) : List Nat :=
  (List.range len).map fun k => readByte w.data (pos + k)

/-- The start address of the window `jumpTo` reads:
`util.MaxInt64(w.cursor-int64(s), 0)` with `s = 50`. -/
def jumpBase (w : Window) : Int := max (w.cursor - 50) 0

/-- A bounded forward scan: from index `i`, advance while `i < 100` and the
byte at `i` satisfies `p`, mirroring the two forward loops of
`Window.jumpTo` (whose bound is `2*s = 100`).  `fuel` only drives the
recursion; it is always called with fuel `100 ≥ 100 - i`. -/
def scanPast (p : Nat → Bool) (l : List Nat) : Nat → Nat → Nat
  | i, 0 => i
  | i, fuel + 1 =>
    if i < 100 ∧ p (l.getD i 0) then scanPast p l (i + 1) fuel else i

/-- The backward loop of `Window.jumpTo`:
`for ; 0 < i && isDigit(bytes[i-1]); i--`. -/
def backDigits (l : List Nat) : Nat → Nat
  | 0 => 0
  | i + 1 => if isDigit (l.getD i 0) then backDigits l i else i + 1

/-- Go `strconv.ParseInt` on a nonempty run of ASCII decimal digits, with the
error ignored as in `Window.jumpTo`: on overflow `ParseInt` returns the
largest `int64`, on the empty string it returns 0. -/
def parseDigits (ds : List Nat) : Int :=
  min ((ds.foldl (fun a b => a * 10 + (b - 0x30)) 0 : Nat) : Int) (2 ^ 63 - 1)

/-- The address-location part of `Window.jumpTo` from `core/window.go`:
read 100 bytes around the cursor, skip whitespace from index 50, extend the
digit run backward and forward, reject runs touching the right edge, parse,
and reject values outside `0 < v < length`.  Returns the address to jump
to, or `none` when `jumpTo` is a no-op. -/
def jumpAddr (w : Window) : Option Int :=
  let bytes := readBytes w (jumpBase w) 100
  let i0 := scanPast isWhite bytes 50 100
  if i0 = 100 then none
  else if ¬ isDigit (bytes.getD i0 0) then none
  else
    let i := backDigits bytes i0
    let j := scanPast isDigit bytes i 100
    if j = 100 then none
    else
      let v := parseDigits ((bytes.drop i).take (j - i))
      if v ≤ 0 ∨ w.length ≤ v then none
      else some v

/-- Go `Window.jumpTo` from `core/window.go`: on a located valid address, push
the current `(cursor, offset)` pair and move there; otherwise leave the
window unchanged. -/
def jumpTo (w : Window) : Window :=
  match jumpAddr w with
  | none => w
  | some v =>
    { w with stack := (w.cursor, w.offset) :: w.stack,
             cursor := v,
             offset := max (v - v.tmod w.width - max (w.height.tdiv 3) 0 * w.width) 0 }

/-- Go `Window.jumpBack` from `core/window.go`. -/
def jumpBack (w : Window) : Window :=
  match w.stack with
  | [] => w
  | p :: rest => { w with cursor := p.1, offset := p.2, stack := rest }

/-- One navigation operation of the engine, with its count argument where
the Go method takes one. -/
inductive NavOp where
  | cursorUp (count : Int)
  | cursorDown (count : Int)
  | cursorLeft (count : Int)
  | cursorRight (count : Int)
  | cursorPrev (count : Int)
  | cursorNext (count : Int)
  | cursorHead (count : Int)
  | cursorEnd (count : Int)
  | scrollUp (count : Int)
  | scrollDown (count : Int)
  | pageUp
  | pageDown
  | pageUpHalf
  | pageDownHalf
  | pageTop
  | pageEnd
  | jumpTo
  | jumpBack

/-- Dispatch of a navigation operation to the corresponding method. -/
def applyNavOp : NavOp → Window → Window
  | .cursorUp n => cursorUp n
  | .cursorDown n => cursorDown n
  | .cursorLeft n => cursorLeft n
  | .cursorRight n => cursorRight n
  | .cursorPrev n => cursorPrev n
  | .cursorNext n => cursorNext n
  | .cursorHead n => cursorHead n
  | .cursorEnd n => cursorEnd n
  | .scrollUp n => scrollUp n
  | .scrollDown n => scrollDown n
  | .pageUp => pageUp
  | .pageDown => pageDown
  | .pageUpHalf => pageUpHalf
  | .pageDownHalf => pageDownHalf
  | .pageTop => pageTop
  | .pageEnd => pageEnd
  | .jumpTo => jumpTo
  | .jumpBack => jumpBack

/-- Go `Key` from `core/key.go`: one keyboard stroke, an opaque string. -/
abbrev Key := String

/-- Modelled from the spec: the command identifiers (`EventType` constants)
referenced by `core/key.go`; their declarations are outside the given core
files.  `nop` is `EventNop`, the "no event" result. -/
inductive EventType where
  | nop
  | quit
  | cursorUp
  | cursorDown
  | cursorLeft
  | cursorRight
  | cursorPrev
  | cursorNext
  | cursorHead
  | cursorEnd
  | scrollUp
  | scrollDown
  | pageUp
  | pageDown
  | pageUpHalf
  | pageDownHalf
  | pageTop
  | pageEnd
  | jumpTo
  | jumpBack
  | deleteByte
  | deletePrevByte
  | increment
  | decrement
  | startInsert
  | startInsertHead
  | startAppend
  | startAppendEnd
  | startReplaceByte
  | startReplace
  | startCmdline
  | exitInsert
  | backspace
  | delete
  | spaceCmdline
  | backspaceCmdline
  | deleteCmdline
  | deleteWordCmdline
  | clearToHeadCmdline
  | clearCmdline
  | exitCmdline
  | executeCmdline
deriving DecidableEq

/-- Modelled from the spec: a resolved command, an event type plus repeat
count (`Event` with its `Type` and `Count` fields). -/
structure Event where
  type : EventType
  count : Int
deriving DecidableEq

/-- Go `keyEvent` from `core/key.go`: one registered binding. -/
structure KeyEvent where
  keys : List Key
  event : EventType
deriving DecidableEq

/-- The three results of `keyEvent.cmp` (`keysEq`, `keysPending`,
`keysNeq`). -/
inductive Cmp where
  | eq
  | pending
  | neq
deriving DecidableEq

/-- The index loop of `keyEvent.cmp`, walking the binding against the
pressed keys. -/
def cmpAux : List Key → List Key → Cmp
  | [], _ => .eq
  | _ :: _, [] => .pending
  | b :: bs, k :: ks => if b = k then cmpAux bs ks else .neq

/-- Go `keyEvent.cmp` from `core/key.go`: a binding shorter than the pressed
keys never matches; otherwise the keys are compared position by position,
running out of pressed keys means `pending`, full agreement means `eq`. -/
def KeyEvent.cmp (ke : KeyEvent) (ks : List Key) : Cmp :=
  if ke.keys.length < ks.length then .neq else cmpAux ke.keys ks

/-- Go `KeyManager` from `core/key.go`. -/
structure KeyManager where
  keys : List Key
  keyEvents : List KeyEvent
  count : Bool
deriving DecidableEq

/-- Go `NewKeyManager` from `core/key.go`. -/
def NewKeyManager (count : Bool) : KeyManager :=
  { keys := [], keyEvents := [], count := count }

/-- Go `KeyManager.Register` from `core/key.go` (appends in registration
order). -/
def KeyManager.register (km : KeyManager) (event : EventType) (keys : List Key) : KeyManager :=
  { km with keyEvents := km.keyEvents ++ [{ keys := keys, event := event }] }

/-- The digit test of the count-stripping loop in `KeyManager.Press`: the
token is a single byte that is `1`..`9`, or `0` at a position `j > 0` of
the window.  (Go tests `len(k) == 1` on UTF-8 bytes; a single non-ASCII
character fails Go's length test and fails the digit range test here, so
the two agree.) -/
def isCountDigit (j : Nat) (k : Key) : Bool :=
  match k.toList with
  | [c] => ('1' ≤ c ∧ c ≤ '9') ∨ (c = '0' ∧ 0 < j)
  | _ => false

/-- The count-stripping loop of `KeyManager.Press`: accumulate `numStr`
over leading digit tokens (each one byte, so `keys[len(numStr):]` drops
exactly the accumulated tokens) and return it with the remaining window. -/
def stripCount : Nat → List Key → String × List Key
  | _, [] => ("", [])
  | j, k :: rest =>
    if isCountDigit j k then
      let sr := stripCount (j + 1) rest
      (k ++ sr.1, sr.2)
    else ("", k :: rest)

/-- Go `strconv.ParseInt(numStr, 10, 64)` with the error ignored as in
`KeyManager.Press`: 0 on the empty string, the largest `int64` on
overflow. -/
def parseCount (s : String) : Int :=
  min ((s.toList.foldl (fun a c => a * 10 + (c.toNat - 0x30)) 0 : Nat) : Int) (2 ^ 63 - 1)

/-- The inner loop of `KeyManager.Press` over the registered bindings:
the first binding comparing `pending` or `eq` decides; `neq` moves on. -/
def windowHit : List KeyEvent → List Key → Option (Cmp × EventType)
  | [], _ => none
  | ke :: rest, ks =>
    match ke.cmp ks with
    | .pending => some (.pending, ke.event)
    | .eq => some (.eq, ke.event)
    | .neq => windowHit rest ks

/-- The three outcomes of the window scan in `KeyManager.Press`. -/
inductive PressOutcome where
  | pending
  | found (e : EventType) (c : Int)
  | exhausted
deriving DecidableEq

/-- The outer loop of `KeyManager.Press` over suffix-windows `keys[i:]`
(`i` from 0 upward, so dropping the oldest key each time): strip the count
when enabled, then scan the bindings; `pending` stops everything, `eq`
resolves, otherwise try the next window; no window left means no match
(`exhausted`). -/
def pressScan (cnt : Bool) (evs : List KeyEvent) : List Key → PressOutcome
  | [] => .exhausted
  | k :: rest =>
    let sr := if cnt then stripCount 0 (k :: rest) else ("", k :: rest)
    let c : Int := if cnt then parseCount sr.1 else 0
    match windowHit evs sr.2 with
    | some (.pending, _) => .pending
    | some (.eq, e) => .found e c
    | some (.neq, _) => pressScan cnt evs rest
    | none => pressScan cnt evs rest

/-- Go `KeyManager.Press` from `core/key.go`: append the token, scan; on
`pending` return no event and keep the sequence, on a match clear it and
return the event with the count, otherwise clear it and return no event. -/
def KeyManager.press (km : KeyManager) (k : Key) : Event × KeyManager :=
  let keys := km.keys ++ [k]
  match pressScan km.count km.keyEvents keys with
  | .pending => ({ type := .nop, count := 0 }, { km with keys := keys })
  | .found e c => ({ type := e, count := c }, { km with keys := [] })
  | .exhausted => ({ type := .nop, count := 0 }, { km with keys := [] })

/-- The Normal-mode key manager built by `defaultKeyManagers` in
`core/key.go`: counting enabled, bindings in registration order. -/
def defaultNormalKM : KeyManager :=
  NewKeyManager true
  |>.register .quit ["Z", "Q"]
  |>.register .cursorUp ["up"]
  |>.register .cursorDown ["down"]
  |>.register .cursorLeft ["left"]
  |>.register .cursorRight ["right"]
  |>.register .pageUp ["pgup"]
  |>.register .pageDown ["pgdn"]
  |>.register .pageTop ["home"]
  |>.register .pageEnd ["end"]
  |>.register .cursorUp ["k"]
  |>.register .cursorDown ["j"]
  |>.register .cursorLeft ["h"]
  |>.register .cursorRight ["l"]
  |>.register .cursorPrev ["b"]
  |>.register .cursorNext ["w"]
  |>.register .cursorHead ["0"]
  |>.register .cursorHead ["^"]
  |>.register .cursorEnd ["$"]
  |>.register .scrollUp ["c-y"]
  |>.register .scrollDown ["c-e"]
  |>.register .pageUp ["c-b"]
  |>.register .pageDown ["c-f"]
  |>.register .pageUpHalf ["c-u"]
  |>.register .pageDownHalf ["c-d"]
  |>.register .pageTop ["g", "g"]
  |>.register .pageEnd ["G"]
  |>.register .jumpTo ["c-]"]
  |>.register .jumpBack ["c-t"]
  |>.register .deleteByte ["x"]
  |>.register .deletePrevByte ["X"]
  |>.register .increment ["c-a"]
  |>.register .increment ["+"]
  |>.register .decrement ["c-x"]
  |>.register .decrement ["-"]
  |>.register .startInsert ["i"]
  |>.register .startInsertHead ["I"]
  |>.register .startAppend ["a"]
  |>.register .startAppendEnd ["A"]
  |>.register .startReplaceByte ["r"]
  |>.register .startReplace ["R"]
  |>.register .startCmdline [":"]

/-- The key manager built for `ModeInsert` in `defaultKeyManagers` and
assigned to both `ModeInsert` and `ModeReplace`: counting disabled. -/
def defaultInsertKM : KeyManager :=
  NewKeyManager false
  |>.register .exitInsert ["escape"]
  |>.register .exitInsert ["c-c"]
  |>.register .cursorUp ["up"]
  |>.register .cursorDown ["down"]
  |>.register .cursorLeft ["left"]
  |>.register .cursorRight ["right"]
  |>.register .pageUp ["pgup"]
  |>.register .pageDown ["pgdn"]
  |>.register .pageTop ["home"]
  |>.register .pageEnd ["end"]
  |>.register .backspace ["backspace"]
  |>.register .backspace ["backspace2"]
  |>.register .delete ["delete"]

/-- The command-line-mode key manager built by `defaultKeyManagers`:
counting disabled. -/
def defaultCmdlineKM : KeyManager :=
  NewKeyManager false
  |>.register .spaceCmdline ["space"]
  |>.register .cursorLeft ["left"]
  |>.register .cursorLeft ["c-b"]
  |>.register .cursorRight ["right"]
  |>.register .cursorRight ["c-f"]
  |>.register .cursorHead ["home"]
  |>.register .cursorHead ["c-a"]
  |>.register .cursorEnd ["end"]
  |>.register .cursorEnd ["c-e"]
  |>.register .backspaceCmdline ["c-h"]
  |>.register .backspaceCmdline ["backspace"]
  |>.register .backspaceCmdline ["backspace2"]
  |>.register .deleteCmdline ["delete"]
  |>.register .deleteWordCmdline ["c-w"]
  |>.register .clearToHeadCmdline ["c-u"]
  |>.register .clearCmdline ["c-k"]
  |>.register .exitCmdline ["escape"]
  |>.register .exitCmdline ["c-c"]
  |>.register .executeCmdline ["enter"]
  |>.register .executeCmdline ["c-j"]
  |>.register .executeCmdline ["c-m"]

/-- The three `KeyManager` allocations of `defaultKeyManagers`, indexed in
allocation order; an index stands for the identity of one Go
`*KeyManager`. -/
def defaultKMStore : List KeyManager :=
  [defaultNormalKM, defaultInsertKM, defaultCmdlineKM]

/-- Which allocation the map built by `defaultKeyManagers` assigns to each
mode: `kms[ModeInsert] = km; kms[ModeReplace] = km` store the same
pointer. -/
def defaultKMIndex : Mode → Nat
  | .normal => 0
  | .insert => 1
  | .replace => 1
  | .cmdline => 2

/-- The displayed-window containment property of the spec's data model:
`offset ≤ cursor < offset + height*width`. -/
def Contained (w : Window) : Prop :=
  w.offset ≤ w.cursor ∧ w.cursor < w.offset + w.height * w.width

/-- The data-model invariants of the spec, strengthened as the analysis of
`pageUp`/`pageDown` forces: `height ≥ 2` (not merely `height > 0`),
`length ≥ 0`, and every saved pair on the jump stack itself satisfies
containment. -/
def WindowInv (w : Window) : Prop :=
  0 < w.width ∧ 2 ≤ w.height ∧ 0 ≤ w.length ∧
  w.offset % w.width = 0 ∧ 0 ≤ w.offset ∧
  0 ≤ w.cursor ∧ w.cursor ≤ max (w.length - 1) 0 ∧
  w.offset ≤ w.cursor ∧ w.cursor < w.offset + w.height * w.width ∧
  ∀ p ∈ w.stack, p.2 ≤ p.1 ∧ p.1 < p.2 + w.height * w.width

instance (w : Window) : Decidable (Contained w) := by
  unfold Contained; infer_instance

instance (w : Window) : Decidable (WindowInv w) := by
  unfold WindowInv; infer_instance

/-- Width 16, height 10, length 400: the page-end/page-top scenario of the
spec. -/
def pageScenarioWindow : Window :=
  { height := 10, width := 16, offset := 0, cursor := 0, length := 400,
    stack := [], data := [] }

/-- A window over a file of 5 bytes, shorter than one page of 10×16. -/
def shortFileWindow : Window :=
  { height := 10, width := 16, offset := 0, cursor := 0, length := 5,
    stack := [], data := List.replicate 5 0 }

/-- A one-row-high window at the top of a 100-byte file. -/
def heightOneWindow : Window :=
  { height := 1, width := 16, offset := 0, cursor := 0, length := 100,
    stack := [], data := [] }

/-- A window whose data spells the decimal digits `123` at addresses
50..52, surrounded by spaces, with the cursor at 0. -/
def jumpDemoWindow : Window :=
  { height := 10, width := 16, offset := 0, cursor := 0, length := 200,
    stack := [],
    data := List.replicate 50 0x20 ++ [0x31, 0x32, 0x33] ++ List.replicate 147 0x20 }

/-- The length of the longest binding registered in a key manager. -/
def longestBinding (km : KeyManager) : Nat :=
  km.keyEvents.foldl (fun a ke => max a ke.keys.length) 0

/-- The remainder a suffix-window is matched on: the window minus its
leading digit run when counting is enabled. -/
def strippedWindow (cnt : Bool) (w : List Key) : List Key :=
  if cnt then (stripCount 0 w).2 else w

/-- Definition of `press` as the spec's §4.1 words it: append the token; over the
nonempty suffix-windows of the buffer from position 0 upward, strip a
leading digit run when counting is enabled and compare the remainder
against the bindings in registration order; the first binding reporting
pending yields no event without clearing; the first exact match clears and
yields that binding's command with the parsed count; no hit anywhere
clears and yields no event. -/
def pressSpec (km : KeyManager) (k : Key) : Event × KeyManager :=
  let buf := km.keys ++ [k]
  let hit : Option (Option (EventType × Int)) :=
    (buf.tails.filter fun w => ¬ w.isEmpty).findSome? fun w =>
      let sr := if km.count then stripCount 0 w else ("", w)
      km.keyEvents.findSome? fun ke =>
        match ke.cmp sr.2 with
        | Cmp.pending => some none
        | Cmp.eq => some (some (ke.event, if km.count then parseCount sr.1 else 0))
        | Cmp.neq => none
  match hit with
  | some none => ({ type := .nop, count := 0 }, { km with keys := buf })
  | some (some (e, c)) => ({ type := e, count := c }, { km with keys := [] })
  | none => ({ type := .nop, count := 0 }, { km with keys := [] })


/-! ### Integer helper lemmas -/

lemma ediv_mul_le_self (a : Int) {W : Int} (hW : 0 < W) : a / W * W ≤ a :=
  Int.ediv_mul_le a hW.ne'

lemma lt_ediv_mul_add (a : Int) {W : Int} (hW : 0 < W) : a < a / W * W + W := by
  have h := Int.lt_ediv_add_one_mul_self a hW
  have e : (a / W + 1) * W = a / W * W + W := by ring
  linarith [h, e.le]

lemma le_mul_ediv_of_dvd {off a W : Int} (hW : 0 < W) (hd : W ∣ off) (h : off ≤ a) :
    off ≤ a / W * W := by
  obtain ⟨q, rfl⟩ := hd
  have h1 : q ≤ a / W := by
    have h2 := Int.ediv_le_ediv hW h
    rwa [Int.mul_ediv_cancel_left q hW.ne'] at h2
  nlinarith [h1, hW.le]

lemma ceil_mul_ge (x : Int) {W : Int} (hW : 0 < W) : x ≤ (x + W - 1) / W * W := by
  have h := lt_ediv_mul_add (x + W - 1) hW
  linarith

lemma add_le_of_dvd_lt {a b W : Int} (hW : 0 < W) (hda : W ∣ a) (hdb : W ∣ b)
    (h : a < b) : a + W ≤ b := by
  obtain ⟨p, rfl⟩ := hda
  obtain ⟨q, rfl⟩ := hdb
  have hpq : p < q := lt_of_mul_lt_mul_left h hW.le
  nlinarith [hpq, hW.le]

/-- The snap used when the cursor lands below the window:
`offset' = (c - H*W + W)/W*W` puts `c` on the last visible row. -/
lemma snap_down {W H : Int} (hW : 0 < W) (hH : 1 ≤ H) (c : Int) :
    (c - H * W + W) / W * W ≤ c ∧ c < (c - H * W + W) / W * W + H * W := by
  have h1 : (c - H * W + W) / W * W ≤ c - H * W + W := ediv_mul_le_self _ hW
  have h2 : c - H * W + W < (c - H * W + W) / W * W + W := lt_ediv_mul_add _ hW
  constructor
  · nlinarith [h1, hH, hW.le]
  · linarith

/-- The snap used when the cursor lands above the window:
`offset' = c/W*W` puts `c` on the first visible row. -/
lemma snap_up {W H : Int} (hW : 0 < W) (hH : 1 ≤ H) (c : Int) :
    c / W * W ≤ c ∧ c < c / W * W + H * W := by
  refine ⟨ediv_mul_le_self _ hW, ?_⟩
  have h2 := lt_ediv_mul_add c hW
  nlinarith [h2, hH, hW.le]

/-! ### Containment lemmas, one per navigation operation -/

lemma contained_cursorUp (n : Int) (w : Window) (h : WindowInv w) :
    Contained (cursorUp n w) := by
  obtain ⟨hW, hH, hL, hoffm, hoff0, hcur0, hcurL, hoc, hcw, hstack⟩ := h
  have hdvd : w.width ∣ w.offset := Int.dvd_of_emod_eq_zero hoffm
  have hH1 : (1 : Int) ≤ w.height := by linarith
  unfold cursorUp
  rw [Int.tdiv_eq_ediv hcur0 hW.le]
  set m := min (max n 1) (w.cursor / w.width) with hm
  have hm0 : 0 ≤ m := le_min (by omega) (Int.ediv_nonneg hcur0 hW.le)
  have hmq : m ≤ w.cursor / w.width := min_le_right _ _
  have hcur' : 0 ≤ w.cursor - m * w.width := by
    have := ediv_mul_le_self w.cursor hW
    nlinarith [hmq, hW.le]
  have hle : w.cursor - m * w.width ≤ w.cursor := by nlinarith [hm0, hW.le]
  dsimp only
  split
  · rename_i hlt
    unfold Contained
    dsimp only
    rw [Int.tdiv_eq_ediv hcur' hW.le]
    exact snap_up hW hH1 (w.cursor - m * w.width)
  · rename_i hge
    push_neg at hge
    exact ⟨hge, by dsimp only; linarith⟩

lemma contained_cursorDown (n : Int) (w : Window) (h : WindowInv w) :
    Contained (cursorDown n w) := by
  obtain ⟨hW, hH, hL, hoffm, hoff0, hcur0, hcurL, hoc, hcw, hstack⟩ := h
  have hH1 : (1 : Int) ≤ w.height := by linarith
  have hL1 : (0 : Int) ≤ max w.length 1 - 1 := by omega
  have hcurL1 : w.cursor ≤ max w.length 1 - 1 := by omega
  unfold cursorDown
  rw [Int.tdiv_eq_ediv hL1 hW.le, Int.tdiv_eq_ediv hcur0 hW.le]
  set Q := (max w.length 1 - 1) / w.width - w.cursor / w.width with hQ
  have hQ0 : 0 ≤ Q := by
    have := Int.ediv_le_ediv hW hcurL1
    omega
  set m := min (max n 1) Q with hm
  have hm0 : 0 ≤ m := le_min (by omega) hQ0
  set d := min (m * w.width) (max w.length 1 - 1 - w.cursor) with hd
  have hd0 : 0 ≤ d := le_min (by nlinarith) (by omega)
  have hdle : d ≤ max w.length 1 - 1 - w.cursor := min_le_right _ _
  dsimp only
  split
  · rename_i hge
    have hc' : 0 ≤ w.cursor + d - w.height * w.width + w.width := by nlinarith
    unfold Contained
    dsimp only
    rw [Int.tdiv_eq_ediv hc' hW.le]
    exact snap_down hW hH1 (w.cursor + d)
  · rename_i hlt
    push_neg at hlt
    exact ⟨by dsimp only; linarith, by dsimp only; linarith [hlt]⟩

lemma contained_cursorLeft (n : Int) (w : Window) (h : WindowInv w) :
    Contained (cursorLeft n w) := by
  obtain ⟨hW, hH, hL, hoffm, hoff0, hcur0, hcurL, hoc, hcw, hstack⟩ := h
  have hdvd : w.width ∣ w.offset := Int.dvd_of_emod_eq_zero hoffm
  unfold cursorLeft Contained
  dsimp only
  rw [Int.tmod_eq_emod hcur0 hW.le]
  have hr0 : 0 ≤ w.cursor % w.width := Int.emod_nonneg _ hW.ne'
  have hrow : w.cursor - w.cursor % w.width = w.cursor / w.width * w.width := by
    have := Int.ediv_add_emod w.cursor w.width
    linarith [this, (mul_comm w.width (w.cursor / w.width)).le]
  have hoffrow : w.offset ≤ w.cursor / w.width * w.width :=
    le_mul_ediv_of_dvd hW hdvd hoc
  constructor
  · have : w.cursor - w.cursor % w.width ≤ w.cursor - min (max n 1) (w.cursor % w.width) := by
      have := min_le_right (max n 1) (w.cursor % w.width)
      linarith
    linarith [hrow ▸ this]
  · have h1 : (0 : Int) ≤ min (max n 1) (w.cursor % w.width) := le_min (by omega) hr0
    linarith

lemma contained_cursorRight (n : Int) (w : Window) (h : WindowInv w) :
    Contained (cursorRight n w) := by
  obtain ⟨hW, hH, hL, hoffm, hoff0, hcur0, hcurL, hoc, hcw, hstack⟩ := h
  have hdvd : w.width ∣ w.offset := Int.dvd_of_emod_eq_zero hoffm
  unfold cursorRight Contained
  dsimp only
  rw [Int.tmod_eq_emod hcur0 hW.le]
  have hr0 : 0 ≤ w.cursor % w.width := Int.emod_nonneg _ hW.ne'
  have hrW : w.cursor % w.width < w.width := Int.emod_lt_of_pos _ hW
  have hrow : w.cursor - w.cursor % w.width = w.cursor / w.width * w.width := by
    have := Int.ediv_add_emod w.cursor w.width
    linarith [this, (mul_comm w.width (w.cursor / w.width)).le]
  set d := min (min (max n 1) (w.width - 1 - w.cursor % w.width)) (max w.length 1 - 1 - w.cursor) with hd
  have hd0 : 0 ≤ d := le_min (le_min (by omega) (by omega)) (by omega)
  have hdle : d ≤ w.width - 1 - w.cursor % w.width :=
    le_trans (min_le_left _ _) (min_le_right _ _)
  constructor
  · linarith
  · -- row start + width stays within the window, since both are multiples
    have hrs : w.width ∣ w.cursor / w.width * w.width := Dvd.intro _ (mul_comm _ _)
    have hob : w.width ∣ w.offset + w.height * w.width :=
      dvd_add hdvd (Dvd.intro _ (mul_comm _ _))
    have hlt : w.cursor / w.width * w.width < w.offset + w.height * w.width := by
      have := hrow ▸ (sub_le_self w.cursor hr0)
      linarith [hrow, hr0]
    have := add_le_of_dvd_lt hW hrs hob hlt
    linarith [hrow]

lemma contained_cursorPrev (n : Int) (w : Window) (h : WindowInv w) :
    Contained (cursorPrev n w) := by
  obtain ⟨hW, hH, hL, hoffm, hoff0, hcur0, hcurL, hoc, hcw, hstack⟩ := h
  have hH1 : (1 : Int) ≤ w.height := by linarith
  unfold cursorPrev
  set m := min (max n 1) w.cursor with hm
  have hm0 : 0 ≤ m := le_min (by omega) hcur0
  have hmle : m ≤ w.cursor := min_le_right _ _
  have hcur' : 0 ≤ w.cursor - m := by omega
  dsimp only
  split
  · unfold Contained
    dsimp only
    rw [Int.tdiv_eq_ediv hcur' hW.le]
    exact snap_up hW hH1 (w.cursor - m)
  · rename_i hge
    push_neg at hge
    exact ⟨hge, by dsimp only; linarith⟩

lemma contained_cursorNext (n : Int) (w : Window) (h : WindowInv w) :
    Contained (cursorNext n w) := by
  obtain ⟨hW, hH, hL, hoffm, hoff0, hcur0, hcurL, hoc, hcw, hstack⟩ := h
  have hH1 : (1 : Int) ≤ w.height := by linarith
  unfold cursorNext
  set d := min (max n 1) (max w.length 1 - 1 - w.cursor) with hd
  have hd0 : 0 ≤ d := le_min (by omega) (by omega)
  dsimp only
  split
  · rename_i hge
    have hc' : 0 ≤ w.cursor + d - w.height * w.width + w.width := by nlinarith
    unfold Contained
    dsimp only
    rw [Int.tdiv_eq_ediv hc' hW.le]
    exact snap_down hW hH1 (w.cursor + d)
  · rename_i hlt
    push_neg at hlt
    exact ⟨by dsimp only; linarith, by dsimp only; linarith [hlt]⟩

lemma contained_cursorHead (n : Int) (w : Window) (h : WindowInv w) :
    Contained (cursorHead n w) := by
  obtain ⟨hW, hH, hL, hoffm, hoff0, hcur0, hcurL, hoc, hcw, hstack⟩ := h
  have hdvd : w.width ∣ w.offset := Int.dvd_of_emod_eq_zero hoffm
  unfold cursorHead Contained
  dsimp only
  rw [Int.tmod_eq_emod hcur0 hW.le]
  have hr0 : 0 ≤ w.cursor % w.width := Int.emod_nonneg _ hW.ne'
  have hrow : w.cursor - w.cursor % w.width = w.cursor / w.width * w.width := by
    have := Int.ediv_add_emod w.cursor w.width
    linarith [this, (mul_comm w.width (w.cursor / w.width)).le]
  refine ⟨?_, by linarith⟩
  rw [hrow]
  exact le_mul_ediv_of_dvd hW hdvd hoc

lemma contained_cursorEnd (n : Int) (w : Window) (h : WindowInv w) :
    Contained (cursorEnd n w) := by
  obtain ⟨hW, hH, hL, hoffm, hoff0, hcur0, hcurL, hoc, hcw, hstack⟩ := h
  have hH1 : (1 : Int) ≤ w.height := by linarith
  unfold cursorEnd
  rw [Int.tdiv_eq_ediv hcur0 hW.le]
  set c := min ((w.cursor / w.width + max n 1) * w.width - 1) (max w.length 1 - 1) with hc
  have hcge : w.cursor ≤ c := by
    refine le_min ?_ (by omega)
    have h1 := lt_ediv_mul_add w.cursor hW
    have h2 : (1 : Int) ≤ max n 1 := by omega
    nlinarith
  dsimp only
  split
  · rename_i hge
    have hc' : 0 ≤ c - w.height * w.width + w.width := by nlinarith
    unfold Contained
    dsimp only
    rw [Int.tdiv_eq_ediv hc' hW.le]
    exact snap_down hW hH1 c
  · rename_i hlt
    push_neg at hlt
    exact ⟨by dsimp only; linarith, by dsimp only; linarith [hlt]⟩

lemma contained_scrollUp (n : Int) (w : Window) (h : WindowInv w) :
    Contained (scrollUp n w) := by
  obtain ⟨hW, hH, hL, hoffm, hoff0, hcur0, hcurL, hoc, hcw, hstack⟩ := h
  have hH1 : (1 : Int) ≤ w.height := by linarith
  unfold scrollUp
  rw [Int.tdiv_eq_ediv hoff0 hW.le]
  set m := min (max n 1) (w.offset / w.width) with hm
  have hm0 : 0 ≤ m := le_min (by omega) (Int.ediv_nonneg hoff0 hW.le)
  have hmq : m ≤ w.offset / w.width := min_le_right _ _
  have hoffq : w.offset % w.width = w.offset - w.width * (w.offset / w.width) := Int.emod_def _ _
  have hoff' : 0 ≤ w.offset - m * w.width := by nlinarith [hmq, hW.le, hoffm, hoffq]
  have hoffle : w.offset - m * w.width ≤ w.offset := by nlinarith [hm0, hW.le]
  dsimp only
  split
  · rename_i hge
    have hd0 : 0 ≤ w.cursor - (w.offset - m * w.width) - w.height * w.width := by linarith
    unfold Contained
    dsimp only
    rw [Int.tdiv_eq_ediv hd0 hW.le]
    set d := w.cursor - (w.offset - m * w.width) - w.height * w.width with hdd
    have h1 : d / w.width * w.width ≤ d := ediv_mul_le_self d hW
    have h2 : d < d / w.width * w.width + w.width := lt_ediv_mul_add d hW
    constructor
    · nlinarith [hH1, hW.le]
    · linarith
  · rename_i hlt
    push_neg at hlt
    exact ⟨by dsimp only; linarith, by dsimp only; linarith [hlt]⟩

lemma contained_scrollDown (n : Int) (w : Window) (h : WindowInv w) :
    Contained (scrollDown n w) := by
  obtain ⟨hW, hH, hL, hoffm, hoff0, hcur0, hcurL, hoc, hcw, hstack⟩ := h
  have hH1 : (1 : Int) ≤ w.height := by linarith
  have hHW : w.width ≤ w.height * w.width := by nlinarith
  have hLW : (0 : Int) ≤ max w.length 1 + w.width - 1 := by omega
  have hcurL1 : w.cursor ≤ max w.length 1 - 1 := by omega
  unfold scrollDown
  rw [Int.tdiv_eq_ediv hLW hW.le, Int.tdiv_eq_ediv hoff0 hW.le]
  set T := (max w.length 1 + w.width - 1) / w.width with hT
  have hTge : max w.length 1 ≤ T * w.width := by
    have := ceil_mul_ge (max w.length 1) hW
    rwa [← hT] at this
  have hTle : T * w.width ≤ max w.length 1 + w.width - 1 := by
    have := ediv_mul_le_self (max w.length 1 + w.width - 1) hW
    rwa [← hT] at this
  set q := w.offset / w.width with hq
  have hoffmul : w.offset = w.width * q := by
    rw [hq]
    have h2 := Int.emod_def w.offset w.width
    linarith [h2, hoffm]
  set dl := min (max n 1) (T - w.height - q) with hdl
  dsimp only
  set O := w.offset + dl * w.width with hO
  rcases le_or_lt q (T - w.height) with hA | hB
  · -- the offset can still move down (or stay)
    have hdl0 : 0 ≤ dl := le_min (by omega) (by omega)
    have hdlle : dl ≤ T - w.height - q := min_le_right _ _
    have hOge : w.offset ≤ O := by rw [hO]; nlinarith
    have hOle : O ≤ T * w.width - w.height * w.width := by
      have e1 : dl * w.width ≤ (T - w.height - q) * w.width :=
        mul_le_mul_of_nonneg_right hdlle hW.le
      have e2 : (T - w.height - q) * w.width =
          T * w.width - w.height * w.width - q * w.width := by ring
      have e3 : w.width * q = q * w.width := mul_comm _ _
      rw [hO]
      linarith [e1, e2, hoffmul, e3]
    split
    · rename_i hlt
      have hx0 : (0 : Int) ≤ O - w.cursor + w.width - 1 := by linarith
      unfold Contained
      dsimp only
      rw [Int.tdiv_eq_ediv hx0 hW.le]
      set t := (O - w.cursor + w.width - 1) / w.width * w.width with ht
      have htge : O - w.cursor ≤ t := by
        have := ceil_mul_ge (O - w.cursor) hW
        rwa [← ht] at this
      have htle : t ≤ O - w.cursor + w.width - 1 := by
        have := ediv_mul_le_self (O - w.cursor + w.width - 1) hW
        rwa [← ht] at this
      rcases le_total t (max w.length 1 - 1 - w.cursor) with hmin | hmin
      · rw [min_eq_left hmin]
        exact ⟨by linarith, by linarith⟩
      · rw [min_eq_right hmin]
        refine ⟨by linarith [hOle, hTle, hHW], by linarith⟩
    · rename_i hge
      push_neg at hge
      exact ⟨hge, by linarith⟩
  · -- degenerate short file: the unclamped target pulls the offset up
    have hmineq : dl = T - w.height - q := by
      rw [hdl]; exact min_eq_right (by omega)
    have hOeq : O = (T - w.height) * w.width := by
      rw [hO, hmineq, hoffmul]; ring
    have hOlt : O < w.offset := by
      have e1 : (T - w.height) * w.width + w.width ≤ w.width * q := by nlinarith
      rw [hOeq, hoffmul]
      linarith
    split
    · rename_i hlt
      exact absurd hlt (by push_neg; linarith)
    · rename_i hge
      push_neg at hge
      refine ⟨by linarith, ?_⟩
      have e2 : O + w.height * w.width = T * w.width := by rw [hOeq]; ring
      linarith [hTge, hcurL1, e2]

/-- The ceiling row count over `max length 1` equals the clamped ceiling
row count over `length`, for nonnegative lengths. -/
lemma ceil_len_max (len : Int) {W : Int} (hW : 0 < W) (hL : 0 ≤ len) :
    (max len 1 + W - 1) / W = max ((len + W - 1) / W) 1 := by
  rcases eq_or_lt_of_le hL with h0 | h1
  · have e0 : len = 0 := h0.symm
    subst e0
    have e1 : (max (0 : Int) 1 + W - 1) = W := by omega
    have e2 : ((0 : Int) + W - 1) / W = 0 :=
      Int.ediv_eq_zero_of_lt (by omega) (by omega)
    rw [e1, Int.ediv_self hW.ne']
    omega
  · have h1' : (1 : Int) ≤ len := h1
    have e1 : max len 1 = len := max_eq_left h1'
    have hC1 : (1 : Int) ≤ (len + W - 1) / W := by
      by_contra hc
      push_neg at hc
      have hc0 : (len + W - 1) / W ≤ 0 := by omega
      have := ceil_mul_ge len hW
      nlinarith [hW.le]
    rw [e1, max_eq_left hC1]

/-- The landing position of `pageEnd` (also of `pageDown`/`pageDownHalf`
when the offset reaches its clamp): the first byte of the last row lies in
the window that starts at the clamped final-page offset. -/
lemma lastRow_contained (len : Int) {W H : Int} (hW : 0 < W) (hH1 : 1 ≤ H) (hL : 0 ≤ len) :
    max (((len + W - 1) / W - H) * W) 0 ≤ ((max len 1 + W - 1) / W - 1) * W ∧
    ((max len 1 + W - 1) / W - 1) * W < max (((len + W - 1) / W - H) * W) 0 + H * W := by
  rw [ceil_len_max len hW hL]
  set C := (len + W - 1) / W with hC
  rcases le_or_lt H C with hHC | hHC
  · have hC1 : (1 : Int) ≤ C := le_trans hH1 hHC
    have e1 : max C 1 = C := max_eq_left hC1
    have e2 : max ((C - H) * W) 0 = (C - H) * W :=
      max_eq_left (mul_nonneg (by omega) hW.le)
    rw [e1, e2]
    constructor
    · apply mul_le_mul_of_nonneg_right (by omega) hW.le
    · nlinarith [hW.le]
  · have e2 : max ((C - H) * W) 0 = 0 := by
      apply max_eq_right
      have : C - H ≤ -1 := by omega
      nlinarith [hW.le]
    rw [e2]
    have hm1 : (1 : Int) ≤ max C 1 := le_max_right _ _
    have hmH : max C 1 ≤ H := max_le (by omega) hH1
    constructor
    · simpa using mul_nonneg (by omega : (0 : Int) ≤ max C 1 - 1) hW.le
    · nlinarith [hW.le, hm1, hmH]

lemma contained_pageUp (w : Window) (h : WindowInv w) : Contained (pageUp w) := by
  obtain ⟨hW, hH, hL, hoffm, hoff0, hcur0, hcurL, hoc, hcw, hstack⟩ := h
  have hHW : 0 < w.height * w.width := by nlinarith
  unfold pageUp
  dsimp only
  set O := max (w.offset - (w.height - 2) * w.width) 0 with hO
  have hOle : O ≤ w.offset := by
    rw [hO]
    apply max_le _ hoff0
    nlinarith [mul_nonneg (by omega : (0 : Int) ≤ w.height - 2) hW.le]
  split
  · rename_i h0
    unfold Contained
    dsimp only
    omega
  · split
    · rename_i h0 hge
      unfold Contained
      dsimp only
      constructor
      · nlinarith [mul_nonneg (by omega : (0 : Int) ≤ w.height - 1) hW.le]
      · nlinarith [hW]
    · rename_i h0 hlt
      push_neg at hlt
      exact ⟨by dsimp only; linarith, by dsimp only; linarith [hlt]⟩

lemma contained_pageUpHalf (w : Window) (h : WindowInv w) : Contained (pageUpHalf w) := by
  obtain ⟨hW, hH, hL, hoffm, hoff0, hcur0, hcurL, hoc, hcw, hstack⟩ := h
  have hHW : 0 < w.height * w.width := by nlinarith
  unfold pageUpHalf
  rw [Int.tdiv_eq_ediv (by linarith : (0 : Int) ≤ w.height) (by norm_num : (0 : Int) ≤ 2)]
  dsimp only
  set O := max (w.offset - max (w.height / 2) 1 * w.width) 0 with hO
  have hOle : O ≤ w.offset := by
    rw [hO]
    apply max_le _ hoff0
    have h1 : (0 : Int) ≤ max (w.height / 2) 1 := le_trans zero_le_one (le_max_right _ _)
    nlinarith [mul_nonneg h1 hW.le]
  split
  · rename_i h0
    unfold Contained
    dsimp only
    omega
  · split
    · rename_i h0 hge
      unfold Contained
      dsimp only
      constructor
      · nlinarith [mul_nonneg (by omega : (0 : Int) ≤ w.height - 1) hW.le]
      · nlinarith [hW]
    · rename_i h0 hlt
      push_neg at hlt
      exact ⟨by dsimp only; linarith, by dsimp only; linarith [hlt]⟩

lemma contained_pageDown (w : Window) (h : WindowInv w) : Contained (pageDown w) := by
  obtain ⟨hW, hH, hL, hoffm, hoff0, hcur0, hcurL, hoc, hcw, hstack⟩ := h
  have hH1 : (1 : Int) ≤ w.height := by linarith
  have hHW : 0 < w.height * w.width := by nlinarith
  unfold pageDown
  rw [Int.tdiv_eq_ediv (by omega : (0 : Int) ≤ w.length + w.width - 1) hW.le,
    Int.tdiv_eq_ediv (by omega : (0 : Int) ≤ max w.length 1 + w.width - 1) hW.le]
  dsimp only
  set O0 := max (((w.length + w.width - 1) / w.width - w.height) * w.width) 0 with hO0
  set O := min (w.offset + (w.height - 2) * w.width) O0 with hOdef
  have hlast := lastRow_contained w.length hW hH1 hL
  rw [← hO0] at hlast
  split
  · unfold Contained
    dsimp only
    exact ⟨le_refl O, by linarith⟩
  · split
    · rename_i hlt heq
      unfold Contained
      dsimp only
      rw [heq]
      exact hlast
    · rename_i hlt hne
      push_neg at hlt
      rcases min_cases (w.offset + (w.height - 2) * w.width) O0 with ⟨he, hle⟩ | ⟨he, hlt2⟩
      · rw [← hOdef] at he
        have hOge : w.offset ≤ O := by
          rw [he]
          nlinarith [mul_nonneg (by omega : (0 : Int) ≤ w.height - 2) hW.le]
        exact ⟨by dsimp only; linarith, by dsimp only; linarith⟩
      · rw [← hOdef] at he
        exact absurd he hne

lemma contained_pageDownHalf (w : Window) (h : WindowInv w) : Contained (pageDownHalf w) := by
  obtain ⟨hW, hH, hL, hoffm, hoff0, hcur0, hcurL, hoc, hcw, hstack⟩ := h
  have hH1 : (1 : Int) ≤ w.height := by linarith
  have hHW : 0 < w.height * w.width := by nlinarith
  unfold pageDownHalf
  rw [Int.tdiv_eq_ediv (by omega : (0 : Int) ≤ w.length + w.width - 1) hW.le,
    Int.tdiv_eq_ediv (by linarith : (0 : Int) ≤ w.height) (by norm_num : (0 : Int) ≤ 2),
    Int.tdiv_eq_ediv (by omega : (0 : Int) ≤ max w.length 1 + w.width - 1) hW.le]
  dsimp only
  set O0 := max (((w.length + w.width - 1) / w.width - w.height) * w.width) 0 with hO0
  set O := min (w.offset + max (w.height / 2) 1 * w.width) O0 with hOdef
  have hlast := lastRow_contained w.length hW hH1 hL
  rw [← hO0] at hlast
  split
  · unfold Contained
    dsimp only
    exact ⟨le_refl O, by linarith⟩
  · split
    · rename_i hlt heq
      unfold Contained
      dsimp only
      rw [heq]
      exact hlast
    · rename_i hlt hne
      push_neg at hlt
      rcases min_cases (w.offset + max (w.height / 2) 1 * w.width) O0 with ⟨he, hle⟩ | ⟨he, hlt2⟩
      · rw [← hOdef] at he
        have h1 : (0 : Int) ≤ max (w.height / 2) 1 := le_trans zero_le_one (le_max_right _ _)
        have hOge : w.offset ≤ O := by
          rw [he]
          nlinarith [mul_nonneg h1 hW.le]
        exact ⟨by dsimp only; linarith, by dsimp only; linarith⟩
      · rw [← hOdef] at he
        exact absurd he hne

lemma contained_pageTop (w : Window) (h : WindowInv w) : Contained (pageTop w) := by
  obtain ⟨hW, hH, hL, hoffm, hoff0, hcur0, hcurL, hoc, hcw, hstack⟩ := h
  have hHW : 0 < w.height * w.width := by nlinarith
  unfold pageTop Contained
  dsimp only
  exact ⟨le_refl 0, by linarith⟩

lemma contained_pageEnd (w : Window) (h : WindowInv w) : Contained (pageEnd w) := by
  obtain ⟨hW, hH, hL, hoffm, hoff0, hcur0, hcurL, hoc, hcw, hstack⟩ := h
  have hH1 : (1 : Int) ≤ w.height := by linarith
  unfold pageEnd Contained
  rw [Int.tdiv_eq_ediv (by omega : (0 : Int) ≤ w.length + w.width - 1) hW.le,
    Int.tdiv_eq_ediv (by omega : (0 : Int) ≤ max w.length 1 + w.width - 1) hW.le]
  dsimp only
  exact lastRow_contained w.length hW hH1 hL

/-- An address `jumpTo` locates always passes the range check
`0 < v < length`. -/
lemma jumpAddr_bounds {w : Window} {v : Int} (h : jumpAddr w = some v) :
    0 < v ∧ v < w.length := by
  unfold jumpAddr at h
  dsimp only at h
  split at h
  · exact absurd h (by simp)
  · split at h
    · exact absurd h (by simp)
    · split at h
      · exact absurd h (by simp)
      · split at h
        · exact absurd h (by simp)
        · rename_i hrange
          push_neg at hrange
          obtain ⟨h1, h2⟩ := hrange
          cases h
          exact ⟨lt_of_not_le (by omega), h2⟩

lemma contained_jumpTo (w : Window) (h : WindowInv w) : Contained (jumpTo w) := by
  obtain ⟨hW, hH, hL, hoffm, hoff0, hcur0, hcurL, hoc, hcw, hstack⟩ := h
  have hH1 : (1 : Int) ≤ w.height := by linarith
  unfold jumpTo
  cases hj : jumpAddr w with
  | none => exact ⟨hoc, hcw⟩
  | some v =>
    obtain ⟨hv0, hvlen⟩ := jumpAddr_bounds hj
    unfold Contained
    dsimp only
    rw [Int.tmod_eq_emod hv0.le hW.le,
      Int.tdiv_eq_ediv (by linarith : (0 : Int) ≤ w.height) (by norm_num : (0 : Int) ≤ 3)]
    set k := w.height / 3 with hk
    have hk0 : 0 ≤ k := Int.ediv_nonneg (by linarith) (by norm_num)
    have hk3 : k * 3 ≤ w.height := by
      have := ediv_mul_le_self w.height (by norm_num : (0 : Int) < 3)
      rwa [← hk] at this
    have hkH : k ≤ w.height - 1 := by nlinarith [hk0, hH1]
    rw [max_eq_left hk0]
    have hr0 : 0 ≤ v % w.width := Int.emod_nonneg _ hW.ne'
    have hrW : v % w.width < w.width := Int.emod_lt_of_pos _ hW
    constructor
    · apply max_le _ hv0.le
      nlinarith [mul_nonneg hk0 hW.le]
    · have h1 : v - v % w.width - k * w.width ≤
          max (v - v % w.width - k * w.width) 0 := le_max_left _ _
      have h2 : 1 * w.width ≤ (w.height - k) * w.width :=
        mul_le_mul_of_nonneg_right (by omega) hW.le
      have e : (w.height - k) * w.width = w.height * w.width - k * w.width := by ring
      linarith [h1, h2, e, hrW]

lemma contained_jumpBack (w : Window) (h : WindowInv w) : Contained (jumpBack w) := by
  obtain ⟨hW, hH, hL, hoffm, hoff0, hcur0, hcurL, hoc, hcw, hstack⟩ := h
  unfold jumpBack
  split
  · exact ⟨hoc, hcw⟩
  · rename_i p rest hs
    have hp := hstack p (by rw [hs]; exact List.mem_cons_self p rest)
    exact ⟨hp.1, hp.2⟩

/-- C1 (counterexample): from a state satisfying every invariant the claim
lists (width > 0, height > 0, offset a non-negative multiple of width,
cursor in range, containment), `pageUp` on a window of height 1 moves the
offset one row forward past the cursor, violating containment. -/
theorem pageUp_breaks_containment_at_height_one :
    (0 < heightOneWindow.width ∧ 0 < heightOneWindow.height ∧
      heightOneWindow.offset % heightOneWindow.width = 0 ∧ 0 ≤ heightOneWindow.offset ∧
      0 ≤ heightOneWindow.cursor ∧
      heightOneWindow.cursor ≤ max (heightOneWindow.length - 1) 0 ∧
      Contained heightOneWindow) ∧
    ¬ Contained (applyNavOp .pageUp heightOneWindow) := by
  decide

/-- C1 (amended): with height at least 2 (`pageUp`/`pageDown` break
containment at height 1), a nonnegative length, and every saved jump-stack
pair itself contained, every navigation operation of the engine, with any
count argument, yields a state satisfying
`offset ≤ cursor < offset + height*width`. -/
theorem navOp_preserves_containment (op : NavOp) (w : Window) (h : WindowInv w) :
    Contained (applyNavOp op w) := by
  cases op with
  | cursorUp n => exact contained_cursorUp n w h
  | cursorDown n => exact contained_cursorDown n w h
  | cursorLeft n => exact contained_cursorLeft n w h
  | cursorRight n => exact contained_cursorRight n w h
  | cursorPrev n => exact contained_cursorPrev n w h
  | cursorNext n => exact contained_cursorNext n w h
  | cursorHead n => exact contained_cursorHead n w h
  | cursorEnd n => exact contained_cursorEnd n w h
  | scrollUp n => exact contained_scrollUp n w h
  | scrollDown n => exact contained_scrollDown n w h
  | pageUp => exact contained_pageUp w h
  | pageDown => exact contained_pageDown w h
  | pageUpHalf => exact contained_pageUpHalf w h
  | pageDownHalf => exact contained_pageDownHalf w h
  | pageTop => exact contained_pageTop w h
  | pageEnd => exact contained_pageEnd w h
  | jumpTo => exact contained_jumpTo w h
  | jumpBack => exact contained_jumpBack w h

/-- C1 (witness): the amended theorem applied to a concrete invariant
state. -/
theorem navOp_preserves_containment_witness :
    WindowInv pageScenarioWindow ∧ Contained (applyNavOp .pageDown pageScenarioWindow) :=
  ⟨by decide, navOp_preserves_containment .pageDown pageScenarioWindow (by decide)⟩

/-- C4 (code bug): from the fully invariant state over a 5-byte file with
a 10×16 viewport (offset 0 forced), `scrollDown 1` drives the offset to
-144: the unclamped `h = ceil(length/width) - height` is negative and is
chosen by the min, so the offset becomes negative instead of staying
clamped at `max(ceil(length/width) - height, 0)*width = 0`. -/
theorem scrollDown_short_file_negative_offset :
    WindowInv shortFileWindow ∧
    (scrollDown 1 shortFileWindow).offset = -144 ∧
    (scrollDown 1 shortFileWindow).offset < 0 := by
  decide

/-- C7 (confirmed): with width 16, height 10, length 400, `pageEnd` gives
offset 240 and cursor 384 and a following `pageTop` gives 0/0; in general
`pageEnd` sets the offset to `max((ceil(length/width)-height)*width, 0)`
and the cursor to the first byte of the last row, and `pageTop` zeroes
both.  The ceiling row count `c` is characterized by
`length ≤ c*width < length + width`. -/
theorem pageEnd_pageTop_spec :
    (pageEnd pageScenarioWindow).offset = 240 ∧
    (pageEnd pageScenarioWindow).cursor = 384 ∧
    (pageTop (pageEnd pageScenarioWindow)).offset = 0 ∧
    (pageTop (pageEnd pageScenarioWindow)).cursor = 0 ∧
    ∀ w : Window, 0 < w.width → 0 ≤ w.length →
      ∃ c : Int, w.length ≤ c * w.width ∧ c * w.width < w.length + w.width ∧
        (pageEnd w).offset = max ((c - w.height) * w.width) 0 ∧
        (pageEnd w).cursor = (max c 1 - 1) * w.width ∧
        (pageTop w).offset = 0 ∧ (pageTop w).cursor = 0 := by
  refine ⟨by decide, by decide, by decide, by decide, ?_⟩
  intro w hW hL
  refine ⟨(w.length + w.width - 1) / w.width, ceil_mul_ge w.length hW, ?_, ?_, ?_, rfl, rfl⟩
  · have := ediv_mul_le_self (w.length + w.width - 1) hW
    linarith
  · unfold pageEnd
    rw [Int.tdiv_eq_ediv (by omega : (0 : Int) ≤ w.length + w.width - 1) hW.le]
  · unfold pageEnd
    dsimp only
    rw [Int.tdiv_eq_ediv (by omega : (0 : Int) ≤ max w.length 1 + w.width - 1) hW.le,
      ceil_len_max w.length hW hL]

/-- C7 (witness): the general clause instantiated at the scenario
window. -/
theorem pageEnd_pageTop_spec_witness :
    ∃ c : Int, pageScenarioWindow.length ≤ c * pageScenarioWindow.width ∧
      c * pageScenarioWindow.width < pageScenarioWindow.length + pageScenarioWindow.width ∧
      (pageEnd pageScenarioWindow).offset =
        max ((c - pageScenarioWindow.height) * pageScenarioWindow.width) 0 ∧
      (pageEnd pageScenarioWindow).cursor = (max c 1 - 1) * pageScenarioWindow.width ∧
      (pageTop pageScenarioWindow).offset = 0 ∧ (pageTop pageScenarioWindow).cursor = 0 :=
  pageEnd_pageTop_spec.2.2.2.2 pageScenarioWindow (by decide) (by decide)

/-- When no address is located, `jumpTo` leaves the window unchanged. -/
lemma jumpTo_of_none {w : Window} (h : jumpAddr w = none) : jumpTo w = w := by
  unfold jumpTo
  rw [h]

/-- C5 (confirmed): a `jumpTo` that locates a valid address pushes exactly
the pre-jump `(cursor, offset)` pair, and an immediate `jumpBack` then
restores the entire prior state (hence nested jumps unwind in LIFO order);
a `jumpTo` that locates nothing changes nothing; `jumpBack` on an empty
stack changes nothing. -/
theorem jump_stack_round_trip (w : Window) :
    (jumpTo w = w ∨ jumpBack (jumpTo w) = w) ∧
    ((jumpTo w).stack = w.stack ∨ (jumpTo w).stack = (w.cursor, w.offset) :: w.stack) ∧
    (w.stack = [] → jumpBack w = w) := by
  refine ⟨?_, ?_, ?_⟩
  · cases hj : jumpAddr w with
    | none => exact Or.inl (jumpTo_of_none hj)
    | some v =>
      refine Or.inr ?_
      unfold jumpTo
      rw [hj]
      unfold jumpBack
      rfl
  · cases hj : jumpAddr w with
    | none => exact Or.inl (by rw [jumpTo_of_none hj])
    | some v =>
      refine Or.inr ?_
      unfold jumpTo
      rw [hj]
  · intro hs
    unfold jumpBack
    rw [hs]

/-- C5 (witness): the round trip evaluated on the concrete window whose
data spells an address, and the empty-stack no-op on the same window. -/
theorem jump_stack_round_trip_witness :
    (jumpTo jumpDemoWindow = jumpDemoWindow ∨
      jumpBack (jumpTo jumpDemoWindow) = jumpDemoWindow) ∧
    jumpBack jumpDemoWindow = jumpDemoWindow :=
  ⟨(jump_stack_round_trip jumpDemoWindow).1,
    (jump_stack_round_trip jumpDemoWindow).2.2 rfl⟩

/-- C6 (confirmed): `jumpTo` moves the cursor and pushes onto the stack
only for a located value `v` with `0 < v < length` (the value the code's
`ParseInt` produced, overflow clamped); whenever the scan locates nothing —
no digit run, a run touching the window edge, or an out-of-range value —
the whole state is left unchanged and no error is reported. -/
theorem jumpTo_valid_or_noop (w : Window) :
    (∀ v, jumpAddr w = some v → 0 < v ∧ v < w.length ∧
      (jumpTo w).cursor = v ∧ (jumpTo w).stack = (w.cursor, w.offset) :: w.stack) ∧
    (jumpAddr w = none → jumpTo w = w) := by
  constructor
  · intro v hj
    obtain ⟨h1, h2⟩ := jumpAddr_bounds hj
    refine ⟨h1, h2, ?_, ?_⟩ <;> (unfold jumpTo; rw [hj])
  · exact jumpTo_of_none

/-- C6 (witness): the located address 123 of the demo window is in range
and is jumped to; a window with all-blank data yields no address and no
state change. -/
theorem jumpTo_valid_or_noop_witness :
    ((0 : Int) < 123 ∧ (123 : Int) < jumpDemoWindow.length ∧
      (jumpTo jumpDemoWindow).cursor = 123 ∧
      (jumpTo jumpDemoWindow).stack =
        (jumpDemoWindow.cursor, jumpDemoWindow.offset) :: jumpDemoWindow.stack) ∧
    jumpTo pageScenarioWindow = pageScenarioWindow :=
  ⟨(jumpTo_valid_or_noop jumpDemoWindow).1 123 (by decide),
    (jumpTo_valid_or_noop pageScenarioWindow).2 (by decide)⟩

/-- What the bounded forward scan guarantees: it stops at the first index
at or after `i` (and at most 100) whose byte fails `p`. -/
lemma scanPast_spec (p : Nat → Bool) (l : List Nat) :
    ∀ (fuel i : Nat), i ≤ 100 → 100 - i ≤ fuel →
      i ≤ scanPast p l i fuel ∧ scanPast p l i fuel ≤ 100 ∧
      (∀ k, i ≤ k → k < scanPast p l i fuel → p (l.getD k 0) = true) ∧
      (scanPast p l i fuel < 100 → p (l.getD (scanPast p l i fuel) 0) = false) := by
  intro fuel
  induction fuel with
  | zero =>
    intro i h1 h2
    have hi : i = 100 := by omega
    simp only [scanPast]
    exact ⟨le_refl i, by omega, fun k hk1 hk2 => by omega, by omega⟩
  | succ fuel ih =>
    intro i h1 h2
    simp only [scanPast]
    split
    · rename_i hc
      obtain ⟨hi, hp⟩ := hc
      have IH := ih (i + 1) (by omega) (by omega)
      refine ⟨by omega, IH.2.1, ?_, IH.2.2.2⟩
      intro k hk1 hk2
      rcases eq_or_lt_of_le hk1 with he | hlt
      · rwa [he] at hp
      · exact IH.2.2.1 k (by omega) hk2
    · rename_i hc
      push_neg at hc
      refine ⟨le_refl i, h1, fun k hk1 hk2 => by omega, ?_⟩
      intro hlt
      have := hc hlt
      simpa using this

/-- If `p` holds from `i` to the right edge, the scan runs to 100. -/
lemma scanPast_all (p : Nat → Bool) (l : List Nat) :
    ∀ (fuel i : Nat), i ≤ 100 → 100 - i ≤ fuel →
      (∀ k, i ≤ k → k < 100 → p (l.getD k 0) = true) →
      scanPast p l i fuel = 100 := by
  intro fuel
  induction fuel with
  | zero =>
    intro i h1 h2 _
    have : i = 100 := by omega
    simpa [scanPast]
  | succ fuel ih =>
    intro i h1 h2 hall
    simp only [scanPast]
    split
    · exact ih (i + 1) (by omega) (by omega) (fun k hk1 hk2 => hall k (by omega) hk2)
    · rename_i hc
      push_neg at hc
      rcases eq_or_lt_of_le h1 with he | hlt
      · exact he
      · exact absurd (hall i (le_refl i) hlt) (by simpa using hc hlt)

lemma backDigits_le (l : List Nat) : ∀ i, backDigits l i ≤ i := by
  intro i
  induction i with
  | zero => simp [backDigits]
  | succ i ih =>
    simp only [backDigits]
    split
    · omega
    · omega

lemma backDigits_digits (l : List Nat) :
    ∀ i k, backDigits l i ≤ k → k < i → isDigit (l.getD k 0) = true := by
  intro i
  induction i with
  | zero => intro k h1 h2; omega
  | succ i ih =>
    intro k h1 h2
    by_cases hd : isDigit (l.getD i 0) = true
    · rw [backDigits, if_pos hd] at h1
      rcases eq_or_lt_of_le (Nat.lt_succ_iff.mp h2) with he | hlt
      · rwa [he]
      · exact ih k h1 hlt
    · rw [backDigits, if_neg hd] at h1
      omega

lemma digit_not_white {b : Nat} (h : isDigit b = true) : isWhite b = false := by
  simp only [isDigit, decide_eq_true_eq] at h
  simp only [isWhite, decide_eq_false_iff_not]
  omega

/-- C10 (confirmed): the geometry of the `jumpTo` scan.  The read window
is the 100 bytes from `max(cursor-50, 0)`; the scan starts at buffer
index 50, i.e. at absolute address `max(cursor, 50)`; the located address
is a function of that buffer and the length alone (so any cursor within
the first 50 bytes scans the same region around address 50); a
whitespace/NUL skip that reaches the right edge, or a digit run whose end
reaches the right edge, locates nothing and leaves the state unchanged. -/
theorem jumpTo_scan_geometry (w : Window) :
    (0 ≤ w.cursor → jumpBase w + 50 = max w.cursor 50) ∧
    (∀ w₂ : Window, w.length = w₂.length →
      readBytes w (jumpBase w) 100 = readBytes w₂ (jumpBase w₂) 100 →
      jumpAddr w = jumpAddr w₂) ∧
    ((∀ k, 50 ≤ k → k < 100 →
        isWhite ((readBytes w (jumpBase w) 100).getD k 0) = true) →
      jumpAddr w = none ∧ jumpTo w = w) ∧
    (∀ m, 50 ≤ m → m < 100 →
      (∀ k, 50 ≤ k → k < m →
        isWhite ((readBytes w (jumpBase w) 100).getD k 0) = true) →
      (∀ k, m ≤ k → k < 100 →
        isDigit ((readBytes w (jumpBase w) 100).getD k 0) = true) →
      jumpAddr w = none ∧ jumpTo w = w) := by
  refine ⟨?_, ?_, ?_, ?_⟩
  · intro hc
    unfold jumpBase
    omega
  · intro w₂ hlen hbytes
    unfold jumpAddr
    rw [hbytes, hlen]
  · intro hwhite
    have h100 : scanPast isWhite (readBytes w (jumpBase w) 100) 50 100 = 100 :=
      scanPast_all _ _ 100 50 (by omega) (by omega) (fun k h1 h2 => hwhite k h1 h2)
    have hnone : jumpAddr w = none := by
      unfold jumpAddr
      dsimp only
      rw [h100]
      simp
    exact ⟨hnone, jumpTo_of_none hnone⟩
  · intro m hm1 hm2 hwhite hdig
    set B := readBytes w (jumpBase w) 100 with hB
    have hs := scanPast_spec isWhite B 100 50 (by omega) (by omega)
    set r := scanPast isWhite B 50 100 with hr
    have hrm : r = m := by
      rcases Nat.lt_trichotomy r m with hlt | he | hgt
      · have hrlt : r < 100 := by omega
        have h1 := hs.2.2.2 hrlt
        have h2 := hwhite r hs.1 hlt
        rw [h1] at h2
        cases h2
      · exact he
      · have h1 := hs.2.2.1 m hm1 hgt
        have h2 := digit_not_white (hdig m (le_refl m) hm2)
        rw [h2] at h1
        cases h1
    have hdm : isDigit (B.getD m 0) = true := hdig m (le_refl m) hm2
    have hile : backDigits B m ≤ m := backDigits_le B m
    have hj : scanPast isDigit B (backDigits B m) 100 = 100 := by
      apply scanPast_all _ _ 100 _ (by omega) (by omega)
      intro k hk1 hk2
      by_cases hkm : k < m
      · exact backDigits_digits B m k hk1 hkm
      · exact hdig k (by omega) hk2
    have hnone : jumpAddr w = none := by
      unfold jumpAddr
      dsimp only
      rw [← hB, ← hr, hrm, if_neg (by omega : ¬ (m = 100)), if_neg (not_not_intro hdm), hj]
      simp
    exact ⟨hnone, jumpTo_of_none hnone⟩

/-- C10 (witness): the geometry facts evaluated on the demo window —
cursor 0 scans from absolute address 50 — and the edge rejections on a
window whose data is all spaces and one whose digits run to the edge. -/
lemma replicate_zero_getD (n k : Nat) : (List.replicate n (0 : Nat)).getD k 0 = 0 := by
  induction n generalizing k with
  | zero => simp [List.getD]
  | succ n ih =>
    cases k with
    | zero => simp [List.replicate, List.getD]
    | succ k => simp [List.replicate, List.getD, ih k]

theorem jumpTo_scan_geometry_witness :
    jumpBase jumpDemoWindow + 50 = max jumpDemoWindow.cursor 50 ∧
    (jumpAddr pageScenarioWindow = none ∧ jumpTo pageScenarioWindow = pageScenarioWindow) := by
  have he : readBytes pageScenarioWindow (jumpBase pageScenarioWindow) 100 =
      List.replicate 100 0 := by decide
  refine ⟨(jumpTo_scan_geometry jumpDemoWindow).1 (by decide), ?_⟩
  exact (jumpTo_scan_geometry pageScenarioWindow).2.2.1 fun k h1 h2 => by
    rw [he, replicate_zero_getD]
    rfl

/-- The binding scan of a single window, written with `findSome?` as the
spec words it, agrees with the code's first-pending-or-eq loop. -/
lemma findSome?_eq_windowHit (evs : List KeyEvent) (ks : List Key) (c : Int) :
    (evs.findSome? fun ke =>
      match ke.cmp ks with
      | Cmp.pending => some none
      | Cmp.eq => some (some (ke.event, c))
      | Cmp.neq => none) =
    (match windowHit evs ks with
      | some (Cmp.pending, _) => some none
      | some (Cmp.eq, e) => some (some (e, c))
      | some (Cmp.neq, _) => none
      | none => none) := by
  induction evs with
  | nil => rfl
  | cons ke rest ih =>
    rw [List.findSome?_cons]
    cases h : ke.cmp ks <;> simp only [windowHit, h, ih]

/-- The outer loop of `Press` over suffix-windows, written with
`tails`/`findSome?` as the spec words it, agrees with the code's
recursion. -/
lemma pressScan_eq_tails (cnt : Bool) (evs : List KeyEvent) (l : List Key) :
    ((l.tails.filter fun w => ¬ w.isEmpty).findSome? fun w =>
      evs.findSome? fun ke =>
        match ke.cmp (if cnt then stripCount 0 w else ("", w)).2 with
        | Cmp.pending => some none
        | Cmp.eq =>
          some (some (ke.event,
            if cnt then parseCount (if cnt then stripCount 0 w else ("", w)).1 else 0))
        | Cmp.neq => none) =
    (match pressScan cnt evs l with
      | PressOutcome.pending => some none
      | PressOutcome.found e c => some (some (e, c))
      | PressOutcome.exhausted => none) := by
  induction l with
  | nil => rfl
  | cons k rest ih =>
    rw [List.tails_cons, List.filter_cons, if_pos (by simp), List.findSome?_cons]
    rw [findSome?_eq_windowHit]
    simp only [pressScan]
    cases h : windowHit evs (if cnt then stripCount 0 (k :: rest) else ("", k :: rest)).2 with
    | none => simp only [h]; exact ih
    | some ce =>
      obtain ⟨c, e⟩ := ce
      cases c <;> (simp only [h]; try exact ih)

/-- C2 (confirmed): `Press` implements exactly the resolver algorithm the
spec describes (append, scan suffix-windows from position 0 upward, strip
counts, first pending returns no event keeping the sequence, first exact
match clears and returns the command with the count, otherwise clear and
return no event), and in Normal mode "g","g" resolves page-top while
"g","x" discards the stray "g" and resolves delete-byte. -/
theorem press_resolves_as_specified :
    (∀ (km : KeyManager) (k : Key), km.press k = pressSpec km k) ∧
    defaultNormalKM.press "g" =
      ({ type := .nop, count := 0 }, { defaultNormalKM with keys := ["g"] }) ∧
    ((defaultNormalKM.press "g").2.press "g") =
      ({ type := .pageTop, count := 0 }, { defaultNormalKM with keys := [] }) ∧
    ((defaultNormalKM.press "g").2.press "x") =
      ({ type := .deleteByte, count := 0 }, { defaultNormalKM with keys := [] }) := by
  refine ⟨?_, by decide, by decide, by decide⟩
  intro km k
  unfold KeyManager.press pressSpec
  dsimp only
  rw [pressScan_eq_tails]
  cases pressScan km.count km.keyEvents (km.keys ++ [k]) <;> rfl

/-- C3 (confirmed): in a counting resolver a leading "0" is never consumed
as count (it stays in the window, where binding "0" can match row-head), a
"0" after at least one consumed digit is consumed, every "1".."9" token is
consumed anywhere in the run; "1","2","j" resolves cursor-down with count
12 and "0" alone resolves row-head. -/
theorem count_digit_rules :
    (∀ rest : List Key, stripCount 0 ("0" :: rest) = ("", "0" :: rest)) ∧
    (∀ (j : Nat) (rest : List Key), 0 < j →
      stripCount j ("0" :: rest) =
        ("0" ++ (stripCount (j + 1) rest).1, (stripCount (j + 1) rest).2)) ∧
    (∀ (j : Nat) (rest : List Key) (k : Key) (c : Char), k.toList = [c] →
      '1' ≤ c → c ≤ '9' →
      stripCount j (k :: rest) =
        (k ++ (stripCount (j + 1) rest).1, (stripCount (j + 1) rest).2)) ∧
    ((((defaultNormalKM.press "1").2.press "2").2.press "j") =
      ({ type := .cursorDown, count := 12 }, { defaultNormalKM with keys := [] })) ∧
    (defaultNormalKM.press "0") =
      ({ type := .cursorHead, count := 0 }, { defaultNormalKM with keys := [] }) := by
  refine ⟨?_, ?_, ?_, by decide, by decide⟩
  · intro rest
    rw [stripCount, if_neg (by decide)]
  · intro j rest hj
    have hd : isCountDigit j "0" = true := by
      have ht : ("0" : String).toList = ['0'] := by decide
      unfold isCountDigit
      rw [ht]
      simp [hj]
    rw [stripCount, if_pos hd]
  · intro j rest k c hk h1 h9
    have hd : isCountDigit j k = true := by
      unfold isCountDigit
      rw [hk]
      simp only [decide_eq_true_eq]
      exact Or.inl ⟨h1, h9⟩
    rw [stripCount, if_pos hd]

/-- C3 (witness): the digit rules applied at concrete inputs: "0" after a
digit is consumed, "5" is consumed at the head of a run. -/
theorem count_digit_rules_witness :
    stripCount 1 ["0"] = ("0" ++ (stripCount 2 []).1, (stripCount 2 []).2) ∧
    stripCount 0 ["5"] = ("5" ++ (stripCount 1 []).1, (stripCount 1 []).2) :=
  ⟨count_digit_rules.2.1 1 [] (by decide),
    count_digit_rules.2.2.1 0 [] "5" '5' (by decide) (by decide) (by decide)⟩

lemma cmpAux_pending {bs ks : List Key} (h : cmpAux bs ks = Cmp.pending) :
    ks.length < bs.length := by
  induction bs generalizing ks with
  | nil =>
    rw [show cmpAux [] ks = Cmp.eq from rfl] at h
    exact Cmp.noConfusion h
  | cons b bs ih =>
    cases ks with
    | nil => simp
    | cons k ks =>
      rw [show cmpAux (b :: bs) (k :: ks) = (if b = k then cmpAux bs ks else Cmp.neq)
        from rfl] at h
      by_cases he : b = k
      · rw [if_pos he] at h
        simpa using ih h
      · rw [if_neg he] at h
        exact Cmp.noConfusion h

lemma cmp_pending {ke : KeyEvent} {ks : List Key} (h : ke.cmp ks = Cmp.pending) :
    ks.length < ke.keys.length := by
  unfold KeyEvent.cmp at h
  by_cases hl : ke.keys.length < ks.length
  · rw [if_pos hl] at h
    exact Cmp.noConfusion h
  · rw [if_neg hl] at h
    exact cmpAux_pending h

lemma windowHit_mem {evs : List KeyEvent} {ks : List Key} {c : Cmp} {e : EventType}
    (h : windowHit evs ks = some (c, e)) :
    ∃ ke, ke ∈ evs ∧ ke.cmp ks = c ∧ ke.event = e := by
  induction evs with
  | nil => cases h
  | cons ke rest ih =>
    rw [windowHit] at h
    split at h
    · rename_i hc
      cases h
      exact ⟨ke, List.mem_cons_self ke rest, hc, rfl⟩
    · rename_i hc
      cases h
      exact ⟨ke, List.mem_cons_self ke rest, hc, rfl⟩
    · obtain ⟨ke', hm, hc, he⟩ := ih h
      exact ⟨ke', List.mem_cons_of_mem _ hm, hc, he⟩

lemma pressScan_pending_window (cnt : Bool) (evs : List KeyEvent) :
    ∀ l : List Key, pressScan cnt evs l = PressOutcome.pending →
      ∃ n ke, n < l.length ∧ ke ∈ evs ∧
        ke.cmp (strippedWindow cnt (l.drop n)) = Cmp.pending := by
  intro l
  induction l with
  | nil => intro h; cases h
  | cons k rest ih =>
    intro h
    rw [pressScan] at h
    split at h
    · rename_i hhit
      have hsr : (if cnt then stripCount 0 (k :: rest) else ("", k :: rest)).2 =
          strippedWindow cnt (k :: rest) := by
        unfold strippedWindow
        cases cnt <;> rfl
      rw [hsr] at hhit
      obtain ⟨ke, hm, hc, _⟩ := windowHit_mem hhit
      exact ⟨0, ke, by simp, hm, hc⟩
    · cases h
    · rename_i hhit
      obtain ⟨n, ke, hn, hm, hc⟩ := ih h
      exact ⟨n + 1, ke, by simpa using hn, hm, hc⟩
    · rename_i hhit
      obtain ⟨n, ke, hn, hm, hc⟩ := ih h
      exact ⟨n + 1, ke, by simpa using hn, hm, hc⟩

lemma foldl_max_le_init (l : List KeyEvent) :
    ∀ b : Nat, b ≤ l.foldl (fun a x => max a x.keys.length) b := by
  induction l with
  | nil => intro b; exact le_refl b
  | cons x xs ih =>
    intro b
    exact le_trans (le_max_left b x.keys.length) (ih _)

lemma foldl_max_mem (l : List KeyEvent) :
    ∀ (b : Nat) (ke : KeyEvent), ke ∈ l →
      ke.keys.length ≤ l.foldl (fun a x => max a x.keys.length) b := by
  induction l with
  | nil => intro b ke h; cases h
  | cons x xs ih =>
    intro b ke h
    rcases List.mem_cons.mp h with he | hm
    · subst he
      exact le_trans (le_max_right _ _) (foldl_max_le_init xs _)
    · exact ih _ ke hm

lemma le_longestBinding {km : KeyManager} {ke : KeyEvent} (h : ke ∈ km.keyEvents) :
    ke.keys.length ≤ longestBinding km :=
  foldl_max_mem km.keyEvents 0 ke h

/-- C8 (counterexample): in the default Normal manager (longest binding
length 2) three presses of "1" leave a pending sequence of length 3 that
is not cleared — digit prefixes keep the buffer pending with no length
bound from the bindings. -/
theorem pending_digits_exceed_longest_binding :
    (((defaultNormalKM.press "1").2.press "1").2.press "1").2.keys.length = 3 ∧
    longestBinding defaultNormalKM = 2 ∧
    (((defaultNormalKM.press "1").2.press "1").2.press "1").2.keys ≠ [] := by
  decide

/-- C8 (amended): after every `Press` the pending sequence is either
cleared, or it is the old sequence plus the new token and some
suffix-window of it, minus its digit run when counting, is a strict prefix
of a registered binding — so that stripped remainder (not the whole
buffer) is shorter than the longest registered binding. -/
theorem press_pending_window_bounded (km : KeyManager) (k : Key) :
    (km.press k).2.keys = [] ∨
    ((km.press k).2.keys = km.keys ++ [k] ∧
      ∃ n ke, n < (km.keys ++ [k]).length ∧ ke ∈ km.keyEvents ∧
        ke.cmp (strippedWindow km.count ((km.keys ++ [k]).drop n)) = Cmp.pending ∧
        (strippedWindow km.count ((km.keys ++ [k]).drop n)).length < ke.keys.length ∧
        ke.keys.length ≤ longestBinding km) := by
  unfold KeyManager.press
  dsimp only
  cases h : pressScan km.count km.keyEvents (km.keys ++ [k]) with
  | pending =>
    right
    refine ⟨rfl, ?_⟩
    obtain ⟨n, ke, hn, hm, hc⟩ := pressScan_pending_window km.count km.keyEvents _ h
    exact ⟨n, ke, hn, hm, hc, cmp_pending hc, le_longestBinding hm⟩
  | found e c => exact Or.inl rfl
  | exhausted => exact Or.inl rfl

lemma windowHit_single_key {evs : List KeyEvent} (h1 : ∀ ke ∈ evs, ke.keys.length = 1)
    (k : Key) :
    windowHit evs [k] = none ∨ ∃ e, windowHit evs [k] = some (Cmp.eq, e) := by
  induction evs with
  | nil => exact Or.inl rfl
  | cons ke rest ih =>
    have hk := h1 ke (List.mem_cons_self ke rest)
    have hex : ∃ b, ke.keys = [b] := by
      cases hke : ke.keys with
      | nil => rw [hke] at hk; cases hk
      | cons b bs =>
        rw [hke] at hk
        simp at hk
        exact ⟨b, by rw [hk]⟩
    obtain ⟨b, hb⟩ := hex
    have hcmp : ke.cmp [k] = (if b = k then Cmp.eq else Cmp.neq) := by
      unfold KeyEvent.cmp
      rw [hb]
      simp [cmpAux]
    rw [windowHit, hcmp]
    by_cases he : b = k
    · rw [if_pos he]
      exact Or.inr ⟨ke.event, rfl⟩
    · rw [if_neg he]
      exact ih fun ke' hm => h1 ke' (List.mem_cons_of_mem _ hm)

/-- A counting-disabled manager whose bindings are all single keys and
whose pending sequence is empty returns to exactly the same state after
any press: every window scan ends in `eq` or exhausts, never `pending`. -/
lemma press_single_bindings (km : KeyManager) (hc : km.count = false)
    (h0 : km.keys = []) (h1 : ∀ ke ∈ km.keyEvents, ke.keys.length = 1) (k : Key) :
    (km.press k).2 = km := by
  obtain ⟨keys, evs, cnt⟩ := km
  replace hc : cnt = false := hc
  replace h0 : keys = [] := h0
  replace h1 : ∀ ke ∈ evs, ke.keys.length = 1 := h1
  subst hc h0
  unfold KeyManager.press
  dsimp only [List.nil_append]
  rw [pressScan]
  rcases windowHit_single_key h1 k with hn | ⟨e, he⟩
  · rw [show (if false = true then stripCount 0 [k] else ("", [k])).2 = [k] from rfl, hn]
    rfl
  · rw [show (if false = true then stripCount 0 [k] else ("", [k])).2 = [k] from rfl, he]

/-- C9 (counterexample): `defaultKeyManagers` does not give every mode its
own resolver instance: Insert and Replace are mapped to the same
`KeyManager` allocation, refuting the claimed four independent
instances. -/
theorem insert_replace_same_instance :
    defaultKMIndex Mode.insert = defaultKMIndex Mode.replace := rfl

/-- C9 (amended): Normal and CommandLine own distinct resolver instances,
but Insert and Replace share one; because that shared manager's bindings
are all single-key and counting is off, a press through it always ends
with the pending sequence empty and the manager in its initial state, so
key tokens fed in Insert mode still leave Replace-mode resolution results
unchanged. -/
theorem mode_resolver_sharing :
    defaultKMIndex Mode.insert = defaultKMIndex Mode.replace ∧
    defaultKMIndex Mode.normal ≠ defaultKMIndex Mode.insert ∧
    defaultKMIndex Mode.normal ≠ defaultKMIndex Mode.cmdline ∧
    defaultKMIndex Mode.insert ≠ defaultKMIndex Mode.cmdline ∧
    (defaultKMStore.getD (defaultKMIndex Mode.insert) (NewKeyManager false) =
      defaultInsertKM ∧
     defaultKMStore.getD (defaultKMIndex Mode.replace) (NewKeyManager false) =
      defaultInsertKM) ∧
    ∀ k : Key, (defaultInsertKM.press k).2 = defaultInsertKM := by
  refine ⟨rfl, by decide, by decide, by decide, ⟨rfl, rfl⟩, ?_⟩
  intro k
  exact press_single_bindings defaultInsertKM rfl rfl (by decide) k

end Bed
